import Mathlib

/-!
Shallow embedding of `Activity-02/analyze_log.py`, a Cowrie honeypot log
analyzer with five tasks (failed-logins, connections, successful-creds,
identify-bots, top-commands).

Modelling conventions:
* A log line is a `String`.  The regex searches (`FAILED_LOGIN_PATTERN.search`
  etc.) are abstracted as extraction functions `String → Option event`, where
  `none` models "the pattern did not match" and `some` carries the named
  capture groups.  All aggregation, filtering, formatting and ordering logic
  is embedded concretely.
* A Python `dict` / `Counter` / `defaultdict(set)` is an insertion-ordered
  association list: an existing key is updated in place, a new key is
  appended at the end (CPython dicts preserve insertion order).  A `set` of
  IPs is a duplicate-free list (only membership and cardinality are used).
* Python's `sorted` (Timsort) is a stable sort; any stable sort computes the
  same list, so it is modelled by a structural stable insertion sort
  `stableSort gt`, where `gt x y = true` means `x` must be strictly before
  `y` (ties and incomparable pairs keep their original order).
* `print` calls produce a `List String` of output lines.
* `datetime.strptime(ts[:19], "%Y-%m-%dT%H:%M:%S")` is modelled by
  `strptime19`, which accepts exactly the zero-padded 19-character shape the
  `NEW_CONN_PATTERN` timestamp group produces and validates the calendar
  ranges that `datetime` enforces (month 1-12, day vs. month with leap years,
  hour below 24, minute and second below 60, year at least 1); an invalid
  date raises `ValueError` in Python, modelled as `Except.error`.
  `dt.strftime("%Y-%m-%d %H:%M")` renders the year unpadded (as glibc does
  for years below 1000) and the other fields zero-padded to two digits.
-/

open scoped List

namespace AnalyzeLog

/-- Python `f"s:<w"` format padding: left-justify with spaces to a minimum
width `w`, never truncating. -/
def pyLJust (s : String) (w : Nat) : String :=
  s ++ String.mk (List.replicate (w - s.length) ' ')

/-- Python `f"s:>w"` format padding: right-justify with spaces to a minimum
width `w`, never truncating. -/
def pyRJust (s : String) (w : Nat) : String :=
  String.mk (List.replicate (w - s.length) ' ') ++ s

/-- Python `"-" * n`. -/
def dashes (n : Nat) : String := String.mk (List.replicate n '-')

/-- Python string slicing `s[:n]` (by code points). -/
def pyTake (s : String) (n : Nat) : String := String.mk (s.data.take n)

/-- `counter[k] += 1` on an insertion-ordered dict: an existing key is
incremented in place, a new key is appended with count 1 (a `Counter`
treats a missing key as 0). -/
def updateCount {α : Type} [DecidableEq α] : List (α × Nat) → α → List (α × Nat)
  | [], k => [(k, 1)]
  | (k', n) :: rest, k =>
      if k = k' then (k', n + 1) :: rest else (k', n) :: updateCount rest k

/-- `counter[k]` with the `Counter` default of 0 for a missing key. -/
def lookupCount {α : Type} [DecidableEq α] : List (α × Nat) → α → Nat
  | [], _ => 0
  | (k', n) :: rest, k => if k = k' then n else lookupCount rest k

/-- `d[k].add(ip)` on a `defaultdict(set)`: the per-key set is a
duplicate-free list, so adding an element that is already present leaves it
unchanged, and a fresh element is appended. -/
def addToSet {α : Type} [DecidableEq α] :
    List (α × List String) → α → String → List (α × List String)
  | [], k, ip => [(k, [ip])]
  | (k', s) :: rest, k, ip =>
      if k = k' then (k', if ip ∈ s then s else s ++ [ip]) :: rest
      else (k', s) :: addToSet rest k ip

/-- `d[k]` on the set-valued dict (for stating theorems). -/
def lookupSet {α : Type} [DecidableEq α] :
    List (α × List String) → α → Option (List String)
  | [], _ => none
  | (k', s) :: rest, k => if k = k' then some s else lookupSet rest k

/-- One step of a stable sort: insert `x` into the already-sorted `l`,
placing it immediately before the first element `y` with `gt x y`, hence
after every earlier element it does not strictly precede. -/
def insertStable {α : Type} (gt : α → α → Bool) (x : α) : List α → List α
  | [] => [x]
  | y :: ys => if gt x y then x :: y :: ys else y :: insertStable gt x ys

/-- Stable sort (models Python's stable `sorted`): `gt x y = true` means `x`
must come strictly before `y`; ties keep their original relative order. -/
def stableSort {α : Type} (gt : α → α → Bool) (l : List α) : List α :=
  l.foldl (fun acc x => insertStable gt x acc) []

/-- Comparator for `Counter.most_common()` /
`sorted(..., key=itemgetter(1), reverse=True)`: strictly larger count first. -/
def gtCount {α : Type} (a b : α × Nat) : Bool := decide (b.2 < a.2)

/-- `counter.most_common()`: stable sort of the items, descending by count. -/
def most_common {α : Type} (c : List (α × Nat)) : List (α × Nat) :=
  stableSort gtCount c

/-- Python string comparison `<` on lists of code points: lexicographic,
the empty string smaller than any non-empty one. -/
def chLt : List Char → List Char → Bool
  | _, [] => false
  | [], _ :: _ => true
  | c :: cs, d :: ds => if c = d then chLt cs ds else decide (c.toNat < d.toNat)

/-- Python string comparison `a < b` (by code points). -/
def pyStrLt (a b : String) : Bool := chLt a.data b.data

/-- Comparator for `sorted(counter.items())`: Python compares the
`(key, value)` tuples lexicographically, strings by code points. -/
def ltPair (a b : String × Nat) : Bool :=
  pyStrLt a.1 b.1 || (decide (a.1 = b.1) && decide (a.2 < b.2))

/-- `sorted(counter.items())` (ascending by key, then by value). -/
def sortedItems (c : List (String × Nat)) : List (String × Nat) :=
  stableSort ltPair c

/-- Comparator for `sorted(..., key=lambda kv: len(kv[1]), reverse=True)`:
strictly larger set first. -/
def gtSetLen {α : Type} (a b : α × List String) : Bool :=
  decide (b.2.length < a.2.length)

/-- Descending stable sort by the cardinality of the associated IP set. -/
def sortBySetSizeDesc {α : Type} (m : List (α × List String)) :
    List (α × List String) :=
  stableSort gtSetLen m

/-- The column width `_print_counter` computes:
`max((len(str(k)) for k in counter), default=len(head1))` — note the header
length is only the default for an empty counter, not a lower bound. -/
def pcWidth (counter : List (String × Nat)) (head1 : String) : Nat :=
  if counter.isEmpty then head1.length
  else counter.foldl (fun acc kv => max acc kv.1.length) 0

/-- `_print_counter(counter, head1, head2, sort_keys)`: the printed lines. -/
def _print_counter (counter : List (String × Nat)) (head1 head2 : String)
    (sort_keys : Bool) : List String :=
  let width := pcWidth counter head1
  let items := if sort_keys then sortedItems counter else most_common counter
  (pyLJust head1 width ++ " " ++ pyRJust head2 8)
    :: dashes (width + 9)
    :: items.map (fun kv => pyLJust kv.1 width ++ " " ++ pyRJust (toString kv.2) 8)

/-- The counting loop shared by `analyze_failed_logins` (and, after
stripping, `top_commands`): each line is run through the pattern; a match
increments the captured key's counter, a non-match is skipped. -/
def countMatches (extract : String → Option String) :
    List String → List (String × Nat) → List (String × Nat)
  | [], c => c
  | l :: rest, c =>
      match extract l with
      | none => countMatches extract rest c
      | some k => countMatches extract rest (updateCount c k)

/-- The dict comprehension
`Counter(ip: cnt for ip, cnt in counter.items() if cnt >= min_count)`
(order-preserving; the threshold is a Python `int`). -/
def threshold_filter (c : List (String × Nat)) (min_count : Int) :
    List (String × Nat) :=
  c.filter (fun kv => decide (min_count ≤ (kv.2 : Int)))

/-- `analyze_failed_logins(path, min_count)`: the printed lines, with the
`FAILED_LOGIN_PATTERN` search abstracted as `extract` (returning the captured
source IP on a match). -/
def analyze_failed_logins (extract : String → Option String) (min_count : Int)
    (lines : List String) : List String :=
  let counter := countMatches extract lines []
  let filtered := threshold_filter counter min_count
  ("Failed login attempts (min " ++ toString min_count ++ ")")
    :: _print_counter filtered "IP" "Count" false

/-- The components of a Python `datetime` value (only date and time of day
are used by the analyzer). -/
structure Datetime where
  year : Nat
  month : Nat
  day : Nat
  hour : Nat
  minute : Nat
  second : Nat
deriving DecidableEq, Repr

/-- The `\d` character class used by `_strptime`. -/
def isDigitChar (c : Char) : Bool :=
  decide (48 ≤ c.toNat) && decide (c.toNat ≤ 57)

/-- The numeric value of a digit character. -/
def charDigit (c : Char) : Nat := c.toNat - 48

/-- The Gregorian leap-year rule `datetime` validates days against. -/
def isLeapYear (y : Nat) : Prop := y % 4 = 0 ∧ (y % 100 ≠ 0 ∨ y % 400 = 0)

instance (y : Nat) : Decidable (isLeapYear y) := by
  unfold isLeapYear; infer_instance

/-- Days in a month, as `datetime` validates them. -/
def daysInMonth (y m : Nat) : Nat :=
  if m = 2 then (if isLeapYear y then 29 else 28)
  else if m = 4 ∨ m = 6 ∨ m = 9 ∨ m = 11 then 30 else 31

/-- `datetime.strptime(s, "%Y-%m-%dT%H:%M:%S")`, on the zero-padded
19-character shape produced by the `NEW_CONN_PATTERN` timestamp group
(4-2-2 date, `T`, 2:2:2 time).  Any other shape, or a component outside the
ranges `datetime` enforces (month 1-12, day 1 to the month's length with
leap years, hour below 24, minute and second below 60, year at least 1),
raises `ValueError` in Python, modelled as `none`. -/
def strptime19 (s : String) : Option Datetime :=
  match s.data with
  | [y1, y2, y3, y4, dsh1, m1, m2, dsh2, d1, d2, tch, h1, h2, col1, n1, n2, col2, s1, s2] =>
      if dsh1 = '-' ∧ dsh2 = '-' ∧ tch = 'T' ∧ col1 = ':' ∧ col2 = ':'
          ∧ isDigitChar y1 ∧ isDigitChar y2 ∧ isDigitChar y3 ∧ isDigitChar y4
          ∧ isDigitChar m1 ∧ isDigitChar m2 ∧ isDigitChar d1 ∧ isDigitChar d2
          ∧ isDigitChar h1 ∧ isDigitChar h2 ∧ isDigitChar n1 ∧ isDigitChar n2
          ∧ isDigitChar s1 ∧ isDigitChar s2 then
        let y := ((charDigit y1 * 10 + charDigit y2) * 10 + charDigit y3) * 10 + charDigit y4
        let mo := charDigit m1 * 10 + charDigit m2
        let d := charDigit d1 * 10 + charDigit d2
        let h := charDigit h1 * 10 + charDigit h2
        let mi := charDigit n1 * 10 + charDigit n2
        let se := charDigit s1 * 10 + charDigit s2
        if 1 ≤ y ∧ 1 ≤ mo ∧ mo ≤ 12 ∧ 1 ≤ d ∧ d ≤ daysInMonth y mo
            ∧ h ≤ 23 ∧ mi ≤ 59 ∧ se ≤ 59 then
          some ⟨y, mo, d, h, mi, se⟩
        else none
      else none
  | _ => none

/-- A number rendered to two digits, as `strftime` pads `%m %d %H %M`. -/
def pad2 (n : Nat) : String := if n < 10 then "0" ++ toString n else toString n

/-- `dt.strftime("%Y-%m-%d %H:%M")` (the minute bucket; seconds are
discarded; `%Y` is the unpadded decimal year as glibc renders it). -/
def strftime_minute (dt : Datetime) : String :=
  toString dt.year ++ "-" ++ pad2 dt.month ++ "-" ++ pad2 dt.day
    ++ " " ++ pad2 dt.hour ++ ":" ++ pad2 dt.minute

/-- The reading loop of `connections`: a matched line has
`strptime(ts[:19])` applied to its captured timestamp (a `ValueError`
aborts the run: `Except.error`) and the resulting minute bucket's counter
incremented; a non-matching line is skipped. -/
def connections_run (extract : String → Option String) :
    List String → List (String × Nat) → Except String (List (String × Nat))
  | [], c => .ok c
  | l :: rest, c =>
      match extract l with
      | none => connections_run extract rest c
      | some ts =>
          match strptime19 (pyTake ts 19) with
          | none => .error ts
          | some dt => connections_run extract rest (updateCount c (strftime_minute dt))

/-- `connections(path)`: the printed lines (or the aborting `ValueError`),
with the `NEW_CONN_PATTERN` search abstracted as `extract` returning the
captured timestamp group (second precision plus any fractional digits; the
`Z` and everything after it are outside the group). -/
def connections (extract : String → Option String) (lines : List String) :
    Except String (List String) :=
  (connections_run extract lines []).map (fun per_min =>
    "Connections per minute" :: _print_counter per_min "Timestamp" "Count" true)

/-- The reading loop of `analyze_successful_creds`: a matched line adds the
captured IP to the set associated with the captured `(user, pw)` pair. -/
def creds_run (extract : String → Option (String × String × String)) :
    List String → List ((String × String) × List String)
      → List ((String × String) × List String)
  | [], m => m
  | l :: rest, m =>
      match extract l with
      | none => creds_run extract rest m
      | some (ip, user, pw) => creds_run extract rest (addToSet m (user, pw) ip)

/-- `analyze_successful_creds(path)`: the printed lines, with the
`SUCCESS_LOGIN_PATTERN` search abstracted as `extract` returning the
captured `(ip, user, pw)`. -/
def analyze_successful_creds (extract : String → Option (String × String × String))
    (lines : List String) : List String :=
  let creds := creds_run extract lines []
  "Successful login credentials"
    :: (pyLJust "Username" 15 ++ " " ++ pyLJust "Password" 15 ++ " " ++ pyRJust "IP_Count" 9)
    :: dashes 41
    :: (sortBySetSizeDesc creds).map (fun kv =>
        pyLJust kv.1.1 15 ++ " " ++ pyLJust kv.1.2 15 ++ " "
          ++ pyRJust (toString kv.2.length) 9)

/-- The reading loop of `identify_bots`: a matched line adds the captured IP
to the set associated with the captured fingerprint. -/
def bots_run (extract : String → Option (String × String)) :
    List String → List (String × List String) → List (String × List String)
  | [], m => m
  | l :: rest, m =>
      match extract l with
      | none => bots_run extract rest m
      | some (ip, fp) => bots_run extract rest (addToSet m fp ip)

/-- The dict comprehension
`fp: ips for fp, ips in fp_map.items() if len(ips) >= min_ips`. -/
def ips_filter (m : List (String × List String)) (min_ips : Int) :
    List (String × List String) :=
  m.filter (fun kv => decide (min_ips ≤ (kv.2.length : Int)))

/-- `identify_bots(path, min_ips)`: the printed lines, with the
`FINGERPRINT_PATTERN` search abstracted as `extract` returning the captured
`(ip, fp)`. -/
def identify_bots (extract : String → Option (String × String)) (min_ips : Int)
    (lines : List String) : List String :=
  let fp_map := bots_run extract lines []
  let bots := ips_filter fp_map min_ips
  ("Fingerprints seen from ≥ " ++ toString min_ips ++ " unique IPs")
    :: (pyLJust "Fingerprint" 47 ++ " " ++ pyRJust "IPs" 6)
    :: dashes 53
    :: (sortBySetSizeDesc bots).map (fun kv =>
        pyLJust kv.1 47 ++ " " ++ pyRJust (toString kv.2.length) 6)

/-- Python `str.strip()` with no argument (whitespace trim; the analyzer
only ever strips shell command text). -/
def pyStrip (s : String) : String := s.trim

/-- The reading loop of `top_commands`: the captured command text is
stripped before counting. -/
def top_commands_run (extract : String → Option String) :
    List String → List (String × Nat) → List (String × Nat)
  | [], c => c
  | l :: rest, c =>
      match extract l with
      | none => top_commands_run extract rest c
      | some cmd => top_commands_run extract rest (updateCount c (pyStrip cmd))

/-- `top_commands(path)`: the printed lines, with the `CMD_PATTERN` search
abstracted as `extract` returning the captured command text. -/
def top_commands (extract : String → Option String) (lines : List String) :
    List String :=
  "Top shell commands"
    :: _print_counter (top_commands_run extract lines []) "Command" "Count" false

/-- The minute bucket a single line contributes to the `connections`
counter: `none` when the pattern does not match; for a match, the parsed
and re-rendered bucket of the captured timestamp (also `none` when the
timestamp is invalid, in which case the run actually aborts). -/
def bucketOf (extract : String → Option String) (l : String) : Option String :=
  (extract l).bind (fun ts => (strptime19 (pyTake ts 19)).map strftime_minute)

/-- A line the `connections` loop survives without raising: either the
pattern does not match, or the captured timestamp parses. -/
def connLineOk (extract : String → Option String) (l : String) : Prop :=
  match extract l with
  | none => True
  | some ts => (strptime19 (pyTake ts 19)).isSome = true

instance (extract : String → Option String) (l : String) :
    Decidable (connLineOk extract l) := by
  unfold connLineOk
  cases extract l <;> infer_instance

/-- The key sequence a CPython dict built by repeated insertion holds:
first-occurrence order, duplicates dropped. -/
def dedupFirst {α : Type} [DecidableEq α] (ks : List α) : List α :=
  ks.foldl (fun acc k => if k ∈ acc then acc else acc ++ [k]) []

/-- Stated from the spec's words, for comparison with the code's bucket
computation: the timestamp "truncated to second precision (fractional part
and zone discarded) and then to the minute bucket `YYYY-MM-DD HH:MM`", i.e.
its first 16 characters with the `T` separator rendered as a space. -/
def spec_minute_truncation (ts : String) : String :=
  String.mk ((ts.data.take 16).map (fun c => if c = 'T' then ' ' else c))

end AnalyzeLog

deriving instance DecidableEq for Except

namespace AnalyzeLog

/-! ### Helper lemmas: the insertion-ordered counter -/

theorem lookupCount_updateCount {α : Type} [DecidableEq α]
    (c : List (α × Nat)) (k x : α) :
    lookupCount (updateCount c k) x
      = if x = k then lookupCount c x + 1 else lookupCount c x := by
  induction c with
  | nil =>
      by_cases hxk : x = k <;> simp [updateCount, lookupCount, hxk]
  | cons hd tl ih =>
      obtain ⟨k', n⟩ := hd
      by_cases hkk : k = k'
      · subst hkk
        by_cases hxk : x = k <;> simp [updateCount, lookupCount, hxk]
      · by_cases hxk : x = k'
        · subst hxk
          simp [updateCount, lookupCount, hkk, Ne.symm hkk]
        · simp [updateCount, lookupCount, hkk, hxk, ih]

theorem keys_updateCount {α : Type} [DecidableEq α] (c : List (α × Nat)) (k : α) :
    (updateCount c k).map Prod.fst
      = if k ∈ c.map Prod.fst then c.map Prod.fst else c.map Prod.fst ++ [k] := by
  induction c with
  | nil => simp [updateCount]
  | cons hd tl ih =>
      obtain ⟨k', n⟩ := hd
      by_cases hkk : k = k'
      · subst hkk; simp [updateCount]
      · simp only [updateCount, if_neg hkk, List.map_cons, List.mem_cons]
        by_cases hm : k ∈ tl.map Prod.fst
        · simp [hm, ih, hkk]
        · simp [hm, ih, hkk]

theorem countMatches_cons (extract : String → Option String)
    (l : String) (rest : List String) (c : List (String × Nat)) :
    countMatches extract (l :: rest) c
      = match extract l with
        | none => countMatches extract rest c
        | some k => countMatches extract rest (updateCount c k) := rfl

theorem lookupCount_countMatches (extract : String → Option String)
    (lines : List String) (c : List (String × Nat)) (x : String) :
    lookupCount (countMatches extract lines c) x
      = lookupCount c x + lines.countP (fun l => decide (extract l = some x)) := by
  induction lines generalizing c with
  | nil => simp [countMatches]
  | cons l rest ih =>
      rw [countMatches_cons]
      cases hx : extract l with
      | none => simp [ih, List.countP_cons, hx]
      | some k =>
          rw [ih, lookupCount_updateCount, List.countP_cons]
          by_cases hk : x = k
          · subst hk
            simp [hx]
            omega
          · have hd : decide (extract l = some x) = false := by
              rw [hx]
              exact decide_eq_false (by
                simp only [Option.some.injEq]
                exact fun h => hk h.symm)
            rw [hd]
            simp [hk]

/-! ### Helper lemmas: the stable sort -/

theorem mem_insertStable {α : Type} (gt : α → α → Bool) (x a : α) (l : List α) :
    a ∈ insertStable gt x l ↔ a = x ∨ a ∈ l := by
  induction l with
  | nil => simp [insertStable]
  | cons y ys ih =>
      by_cases h : gt x y = true
      · simp [insertStable, h, List.mem_cons]
      · simp only [insertStable, if_neg h, List.mem_cons, ih]
        tauto

theorem insertStable_perm {α : Type} (gt : α → α → Bool) (x : α) (l : List α) :
    insertStable gt x l ~ x :: l := by
  induction l with
  | nil => simp [insertStable]
  | cons y ys ih =>
      by_cases h : gt x y = true
      · simp [insertStable, h]
      · simp only [insertStable, if_neg h]
        exact (ih.cons y).trans (List.Perm.swap x y ys)

theorem foldl_insertStable_perm {α : Type} (gt : α → α → Bool) :
    ∀ (l acc : List α),
      l.foldl (fun acc x => insertStable gt x acc) acc ~ acc ++ l
  | [], acc => by simp
  | x :: l, acc => by
      refine (foldl_insertStable_perm gt l (insertStable gt x acc)).trans ?_
      have h1 : insertStable gt x acc ++ l ~ (x :: acc) ++ l :=
        (insertStable_perm gt x acc).append_right l
      refine h1.trans ?_
      simp only [List.cons_append]
      exact (List.perm_middle).symm

theorem stableSort_perm {α : Type} (gt : α → α → Bool) (l : List α) :
    stableSort gt l ~ l := by
  simpa using foldl_insertStable_perm gt l []

theorem mem_stableSort {α : Type} (gt : α → α → Bool) (a : α) (l : List α) :
    a ∈ stableSort gt l ↔ a ∈ l :=
  (stableSort_perm gt l).mem_iff

theorem pairwise_insertStable {α : Type} (gt : α → α → Bool)
    (asymm : ∀ a b, gt a b = true → gt b a = false)
    (transNeg : ∀ a b c, gt a b = false → gt b c = false → gt a c = false)
    (x : α) (l : List α) (h : l.Pairwise (fun a b => gt b a = false)) :
    (insertStable gt x l).Pairwise (fun a b => gt b a = false) := by
  induction l with
  | nil => simp [insertStable]
  | cons y ys ih =>
      rw [List.pairwise_cons] at h
      obtain ⟨h1, h2⟩ := h
      by_cases hxy : gt x y = true
      · simp only [insertStable, if_pos hxy]
        refine List.Pairwise.cons ?_ (List.Pairwise.cons h1 h2)
        intro z hz
        rcases List.mem_cons.mp hz with rfl | hz
        · exact asymm _ _ hxy
        · exact transNeg z y x (h1 z hz) (asymm _ _ hxy)
      · have hxy' : gt x y = false := by
          revert hxy
          cases gt x y <;> simp
        simp only [insertStable, if_neg hxy]
        refine List.Pairwise.cons ?_ (ih h2)
        intro z hz
        rcases (mem_insertStable gt x z ys).mp hz with rfl | hz
        · exact hxy'
        · exact h1 z hz

theorem pairwise_stableSort {α : Type} (gt : α → α → Bool)
    (asymm : ∀ a b, gt a b = true → gt b a = false)
    (transNeg : ∀ a b c, gt a b = false → gt b c = false → gt a c = false)
    (l : List α) :
    (stableSort gt l).Pairwise (fun a b => gt b a = false) := by
  suffices h : ∀ (l acc : List α), acc.Pairwise (fun a b => gt b a = false) →
      (l.foldl (fun acc x => insertStable gt x acc) acc).Pairwise
        (fun a b => gt b a = false) by
    exact h l [] (List.Pairwise.nil)
  intro l
  induction l with
  | nil => intro acc hacc; simpa using hacc
  | cons x xs ih =>
      intro acc hacc
      exact ih _ (pairwise_insertStable gt asymm transNeg x acc hacc)

theorem sublist_insertStable {α : Type} (gt : α → α → Bool) (x : α) (l : List α) :
    l <+ insertStable gt x l := by
  induction l with
  | nil => simp [insertStable]
  | cons y ys ih =>
      by_cases h : gt x y = true
      · simp [insertStable, h]
      · simp only [insertStable, if_neg h]
        exact ih.cons₂ y

theorem singleton_sublist_insertStable {α : Type} (gt : α → α → Bool)
    (x : α) (l : List α) : [x] <+ insertStable gt x l := by
  rw [List.singleton_sublist, mem_insertStable]
  exact Or.inl rfl

theorem pair_sublist_insertStable {α : Type} (gt : α → α → Bool)
    (transNeg : ∀ a b c, gt a b = false → gt b c = false → gt a c = false)
    (x a : α) (l : List α) (hs : l.Pairwise (fun a b => gt b a = false))
    (ha : a ∈ l) (hxa : gt x a = false) :
    [a, x] <+ insertStable gt x l := by
  induction l with
  | nil => cases ha
  | cons y ys ih =>
      rw [List.pairwise_cons] at hs
      obtain ⟨h1, h2⟩ := hs
      by_cases hxy : gt x y = true
      · exfalso
        rcases List.mem_cons.mp ha with rfl | ha'
        · rw [hxa] at hxy; cases hxy
        · have : gt x y = false := transNeg x a y hxa (h1 a ha')
          rw [this] at hxy; cases hxy
      · simp only [insertStable, if_neg hxy]
        rcases List.mem_cons.mp ha with rfl | ha'
        · exact (singleton_sublist_insertStable gt x ys).cons₂ a
        · exact (ih h2 ha').cons y

theorem stableSort_stable {α : Type} (gt : α → α → Bool)
    (asymm : ∀ a b, gt a b = true → gt b a = false)
    (transNeg : ∀ a b c, gt a b = false → gt b c = false → gt a c = false)
    (a b : α) (l : List α) (h : [a, b] <+ l) (hba : gt b a = false) :
    [a, b] <+ stableSort gt l := by
  induction l using List.reverseRecOn with
  | nil => cases (List.sublist_nil.mp h)
  | append_singleton l x ih =>
      have hfold : stableSort gt (l ++ [x]) = insertStable gt x (stableSort gt l) := by
        simp [stableSort, List.foldl_append]
      rw [hfold]
      rw [List.sublist_append_iff] at h
      obtain ⟨s, t, hst, hsl, htx⟩ := h
      have hlt : t.length ≤ 1 := by simpa using htx.length_le
      have hlen2 : s.length + t.length = 2 := by
        have hc := congrArg List.length hst
        simp at hc
        omega
      cases t with
      | nil =>
          rw [List.append_nil] at hst
          subst hst
          exact (ih hsl).trans (sublist_insertStable gt x _)
      | cons t0 t1 =>
          cases t1 with
          | cons u v => simp at hlt
          | nil =>
              have ht0 : t0 = x := by
                rw [List.singleton_sublist] at htx
                simpa using htx
              subst ht0
              have hs1 : s.length = 1 := by simp at hlen2; omega
              obtain ⟨s0, rfl⟩ := List.length_eq_one.mp hs1
              simp only [List.cons_append, List.nil_append, List.cons.injEq,
                and_true] at hst
              obtain ⟨rfl, rfl⟩ := hst
              have hmem : a ∈ stableSort gt l :=
                (mem_stableSort gt a l).mpr (List.singleton_sublist.mp hsl)
              exact pair_sublist_insertStable gt transNeg b a _
                (pairwise_stableSort gt asymm transNeg l) hmem hba

end AnalyzeLog

namespace AnalyzeLog

/-! ### Helper lemmas: the comparators -/

theorem gtCount_asymm {α : Type} (a b : α × Nat) :
    gtCount a b = true → gtCount b a = false := by
  simp [gtCount]
  omega

theorem gtCount_transNeg {α : Type} (a b c : α × Nat) :
    gtCount a b = false → gtCount b c = false → gtCount a c = false := by
  simp [gtCount]
  omega

theorem gtSetLen_asymm {α : Type} (a b : α × List String) :
    gtSetLen a b = true → gtSetLen b a = false := by
  simp [gtSetLen]
  omega

theorem gtSetLen_transNeg {α : Type} (a b c : α × List String) :
    gtSetLen a b = false → gtSetLen b c = false → gtSetLen a c = false := by
  simp [gtSetLen]
  omega

theorem char_toNat_inj {c d : Char} (h : c.toNat = d.toNat) : c = d := by
  rw [← Char.ofNat_toNat c, h, Char.ofNat_toNat]

theorem chLt_asymm : ∀ a b : List Char, chLt a b = true → chLt b a = false
  | _, [], h => by simp [chLt] at h
  | [], _ :: _, _ => by simp [chLt]
  | c :: cs, d :: ds, h => by
      by_cases hcd : c = d
      · subst hcd
        simp only [chLt, if_pos rfl] at h ⊢
        exact chLt_asymm cs ds h
      · simp only [chLt, if_neg hcd, decide_eq_true_eq] at h
        have hdc : ¬ d = c := fun hh => hcd hh.symm
        simp only [chLt, if_neg hdc, decide_eq_false_iff_not]
        omega

theorem chLt_transNeg :
    ∀ a b c : List Char, chLt a b = false → chLt b c = false → chLt a c = false
  | _, _, [], _, _ => by simp [chLt]
  | a, [], z :: zs, hab, hbc => by simp [chLt] at hbc
  | [], y :: ys, z :: zs, hab, hbc => by simp [chLt] at hab
  | x :: xs, y :: ys, z :: zs, hab, hbc => by
      by_cases hxy : x = y
      · subst hxy
        simp only [chLt, if_pos rfl] at hab
        by_cases hyz : x = z
        · subst hyz
          simp only [chLt, if_pos rfl] at hbc ⊢
          exact chLt_transNeg xs ys zs hab hbc
        · simp only [chLt, if_neg hyz] at hbc ⊢
          exact hbc
      · simp only [chLt, if_neg hxy, decide_eq_false_iff_not] at hab
        by_cases hyz : y = z
        · subst hyz
          simp only [chLt, if_neg hxy, decide_eq_false_iff_not]
          omega
        · simp only [chLt, if_neg hyz, decide_eq_false_iff_not] at hbc
          by_cases hxz : x = z
          · exfalso
            subst hxz
            have : y.toNat = x.toNat := by omega
            exact hxy (char_toNat_inj this.symm)
          · simp only [chLt, if_neg hxz, decide_eq_false_iff_not]
            omega

theorem chLt_antisymm :
    ∀ a b : List Char, chLt a b = false → chLt b a = false → a = b
  | [], [], _, _ => rfl
  | [], _ :: _, hab, _ => by simp [chLt] at hab
  | _ :: _, [], _, hba => by simp [chLt] at hba
  | x :: xs, y :: ys, hab, hba => by
      by_cases hxy : x = y
      · subst hxy
        simp only [chLt, if_pos rfl] at hab hba
        rw [chLt_antisymm xs ys hab hba]
      · exfalso
        have hyx : ¬ y = x := fun hh => hxy hh.symm
        simp only [chLt, if_neg hxy, decide_eq_false_iff_not] at hab
        simp only [chLt, if_neg hyx, decide_eq_false_iff_not] at hba
        exact hxy (char_toNat_inj (by omega))


theorem chLt_irrefl : ∀ a : List Char, chLt a a = false
  | [] => rfl
  | c :: cs => by simp [chLt, chLt_irrefl cs]

theorem string_data_inj {s t : String} (h : s.data = t.data) : s = t := by
  cases s
  cases t
  exact congrArg String.mk h

theorem ltPair_iff (a b : String × Nat) :
    ltPair a b = true ↔ (chLt a.1.data b.1.data = true ∨ (a.1 = b.1 ∧ a.2 < b.2)) := by
  simp [ltPair, pyStrLt]

theorem ltPair_false_iff (a b : String × Nat) :
    ltPair a b = false
      ↔ (chLt a.1.data b.1.data = false ∧ (a.1 ≠ b.1 ∨ ¬ a.2 < b.2)) := by
  constructor
  · intro h
    have h' : ¬ (chLt a.1.data b.1.data = true ∨ (a.1 = b.1 ∧ a.2 < b.2)) := by
      rw [← ltPair_iff, h]
      simp
    push_neg at h'
    obtain ⟨h1, h2⟩ := h'
    refine ⟨by simpa using h1, ?_⟩
    by_cases he : a.1 = b.1
    · right
      exact Nat.not_lt.mpr (h2 he)
    · left
      exact he
  · rintro ⟨h1, h2⟩
    rw [← Bool.not_eq_true, ltPair_iff]
    rintro (h | ⟨he, hlt⟩)
    · rw [h1] at h
      cases h
    · rcases h2 with hne | hge
      · exact hne he
      · exact hge hlt

theorem ltPair_asymm (a b : String × Nat) :
    ltPair a b = true → ltPair b a = false := by
  intro h
  rw [ltPair_iff] at h
  rw [ltPair_false_iff]
  rcases h with h | ⟨he, hlt⟩
  · constructor
    · exact chLt_asymm _ _ h
    · left
      intro he
      rw [he] at h
      rw [chLt_irrefl] at h
      cases h
  · rw [he]
    constructor
    · exact chLt_irrefl _
    · right
      omega

theorem ltPair_transNeg (a b c : String × Nat) :
    ltPair a b = false → ltPair b c = false → ltPair a c = false := by
  intro hab hbc
  rw [ltPair_false_iff] at hab hbc ⊢
  obtain ⟨hab1, hab2⟩ := hab
  obtain ⟨hbc1, hbc2⟩ := hbc
  refine ⟨chLt_transNeg _ _ _ hab1 hbc1, ?_⟩
  by_cases hac : a.1 = c.1
  · right
    have hba : chLt b.1.data a.1.data = false := by
      rw [hac]
      exact hbc1
    have heq : a.1 = b.1 := string_data_inj (chLt_antisymm _ _ hab1 hba)
    have heq2 : b.1 = c.1 := by rw [← heq, hac]
    rcases hab2 with hne | hge
    · exact absurd heq hne
    · rcases hbc2 with hne2 | hge2
      · exact absurd heq2 hne2
      · omega
  · left
    exact hac

theorem ltPair_antisymm (a b : String × Nat)
    (hab : ltPair a b = false) (hba : ltPair b a = false) : a = b := by
  rw [ltPair_false_iff] at hab hba
  obtain ⟨hab1, hab2⟩ := hab
  obtain ⟨hba1, hba2⟩ := hba
  have heq : a.1 = b.1 := string_data_inj (chLt_antisymm _ _ hab1 hba1)
  have heq2 : a.2 = b.2 := by
    rcases hab2 with hne | hge
    · exact absurd heq hne
    · rcases hba2 with hne2 | hge2
      · exact absurd heq.symm hne2
      · omega
  exact Prod.ext heq heq2

end AnalyzeLog

namespace AnalyzeLog

/-! ### Helper lemmas: set-valued aggregation -/

theorem addToSet_mem_noop {α : Type} [DecidableEq α]
    (m : List (α × List String)) (k : α) (ip : String) (s : List String)
    (hs : lookupSet m k = some s) (hip : ip ∈ s) :
    addToSet m k ip = m := by
  induction m with
  | nil => cases hs
  | cons hd tl ih =>
      obtain ⟨k', s'⟩ := hd
      by_cases hk : k = k'
      · subst hk
        have hs' : s' = s := by simpa [lookupSet] using hs
        subst hs'
        simp [addToSet, hip]
      · simp only [lookupSet, if_neg hk] at hs
        simp [addToSet, hk, ih hs]

theorem lookupSet_addToSet {α : Type} [DecidableEq α]
    (m : List (α × List String)) (k x : α) (ip : String) :
    lookupSet (addToSet m k ip) x
      = if x = k then
          some (match lookupSet m k with
                | none => [ip]
                | some s => if ip ∈ s then s else s ++ [ip])
        else lookupSet m x := by
  induction m with
  | nil =>
      by_cases hx : x = k <;> simp [addToSet, lookupSet, hx]
  | cons hd tl ih =>
      obtain ⟨k', s'⟩ := hd
      by_cases hk : k = k'
      · subst hk
        by_cases hx : x = k <;> simp [addToSet, lookupSet, hx]
      · by_cases hx : x = k'
        · subst hx
          simp [addToSet, lookupSet, hk, Ne.symm hk]
        · simp [addToSet, lookupSet, hk, hx, ih]

/-! ### Helper lemmas: loops skip unmatched lines -/

theorem countMatches_all_none (extract : String → Option String)
    (lines : List String) (c : List (String × Nat))
    (h : ∀ l ∈ lines, extract l = none) :
    countMatches extract lines c = c := by
  induction lines with
  | nil => rfl
  | cons l rest ih =>
      rw [countMatches_cons, h l (List.mem_cons_self l rest)]
      exact ih (fun l' hl' => h l' (List.mem_cons_of_mem l hl'))

theorem top_commands_run_all_none (extract : String → Option String)
    (lines : List String) (c : List (String × Nat))
    (h : ∀ l ∈ lines, extract l = none) :
    top_commands_run extract lines c = c := by
  induction lines with
  | nil => rfl
  | cons l rest ih =>
      show (match extract l with
            | none => top_commands_run extract rest c
            | some cmd => top_commands_run extract rest (updateCount c (pyStrip cmd))) = c
      rw [h l (List.mem_cons_self l rest)]
      exact ih (fun l' hl' => h l' (List.mem_cons_of_mem l hl'))

theorem creds_run_all_none (extract : String → Option (String × String × String))
    (lines : List String) (m : List ((String × String) × List String))
    (h : ∀ l ∈ lines, extract l = none) :
    creds_run extract lines m = m := by
  induction lines with
  | nil => rfl
  | cons l rest ih =>
      show (match extract l with
            | none => creds_run extract rest m
            | some (ip, user, pw) => creds_run extract rest (addToSet m (user, pw) ip)) = m
      rw [h l (List.mem_cons_self l rest)]
      exact ih (fun l' hl' => h l' (List.mem_cons_of_mem l hl'))

theorem bots_run_all_none (extract : String → Option (String × String))
    (lines : List String) (m : List (String × List String))
    (h : ∀ l ∈ lines, extract l = none) :
    bots_run extract lines m = m := by
  induction lines with
  | nil => rfl
  | cons l rest ih =>
      show (match extract l with
            | none => bots_run extract rest m
            | some (ip, fp) => bots_run extract rest (addToSet m fp ip)) = m
      rw [h l (List.mem_cons_self l rest)]
      exact ih (fun l' hl' => h l' (List.mem_cons_of_mem l hl'))

theorem connections_run_all_none (extract : String → Option String)
    (lines : List String) (c : List (String × Nat))
    (h : ∀ l ∈ lines, extract l = none) :
    connections_run extract lines c = .ok c := by
  induction lines with
  | nil => rfl
  | cons l rest ih =>
      show (match extract l with
            | none => connections_run extract rest c
            | some ts =>
                match strptime19 (pyTake ts 19) with
                | none => Except.error ts
                | some dt => connections_run extract rest (updateCount c (strftime_minute dt))) = .ok c
      rw [h l (List.mem_cons_self l rest)]
      exact ih (fun l' hl' => h l' (List.mem_cons_of_mem l hl'))

end AnalyzeLog

namespace AnalyzeLog

/-! ### Helper lemmas: decimal rendering of small numbers -/

theorem toDigitsCore_small (fuel n : Nat) (ds : List Char) (h : n < 10) :
    Nat.toDigitsCore 10 (fuel + 1) n ds = Nat.digitChar n :: ds := by
  have h0 : n / 10 = 0 := Nat.div_eq_of_lt h
  simp [Nat.toDigitsCore, h0, Nat.mod_eq_of_lt h]

theorem toDigitsCore_step (fuel n : Nat) (ds : List Char) (h : 10 ≤ n) :
    Nat.toDigitsCore 10 (fuel + 1) n ds
      = Nat.toDigitsCore 10 fuel (n / 10) (Nat.digitChar (n % 10) :: ds) := by
  have h0 : n / 10 ≠ 0 := by
    have h1 : 1 ≤ n / 10 := (Nat.le_div_iff_mul_le (by omega)).mpr (by omega)
    omega
  simp [Nat.toDigitsCore, h0]

theorem repr_one_digit (n : Nat) (h : n < 10) :
    Nat.repr n = String.mk [Nat.digitChar n] := by
  unfold Nat.repr Nat.toDigits
  rw [toDigitsCore_small _ _ _ h]
  rfl

theorem repr_two_digits (n : Nat) (h1 : 10 ≤ n) (h2 : n < 100) :
    Nat.repr n = String.mk [Nat.digitChar (n / 10), Nat.digitChar (n % 10)] := by
  have e1 : n + 1 = (n - 1) + 1 + 1 := by omega
  unfold Nat.repr Nat.toDigits
  rw [e1, toDigitsCore_step _ _ _ h1, toDigitsCore_small _ _ _ (by omega)]
  rfl

theorem repr_four_digits (n : Nat) (h1 : 1000 ≤ n) (h2 : n < 10000) :
    Nat.repr n = String.mk [Nat.digitChar (n / 1000), Nat.digitChar (n / 100 % 10),
      Nat.digitChar (n / 10 % 10), Nat.digitChar (n % 10)] := by
  have e1 : n + 1 = (n - 3) + 1 + 1 + 1 + 1 := by omega
  unfold Nat.repr Nat.toDigits
  rw [e1, toDigitsCore_step _ _ _ (by omega), toDigitsCore_step _ _ _ (by omega),
    toDigitsCore_step _ _ _ ?h3, toDigitsCore_small _ _ _ ?h4]
  case h3 => omega
  case h4 => omega
  have e2 : n / 10 / 10 = n / 100 := by omega
  have e3 : n / 100 / 10 = n / 1000 := by omega
  rw [e2, e3]
  rfl

theorem toString_nat_eq_repr (n : Nat) : toString n = Nat.repr n := rfl

theorem pad2_eq (n : Nat) (h : n < 100) :
    pad2 n = String.mk [Nat.digitChar (n / 10), Nat.digitChar (n % 10)] := by
  unfold pad2
  by_cases h10 : n < 10
  · rw [if_pos h10, toString_nat_eq_repr, repr_one_digit n h10,
      Nat.div_eq_of_lt h10, Nat.mod_eq_of_lt h10]
    rfl
  · rw [if_neg h10, toString_nat_eq_repr, repr_two_digits n (by omega) h]

/-! ### Helper lemmas: digit characters -/

theorem isDigitChar_bounds (c : Char) (h : isDigitChar c = true) :
    48 ≤ c.toNat ∧ c.toNat ≤ 57 := by
  simpa [isDigitChar] using h

theorem charDigit_le9 (c : Char) (h : isDigitChar c = true) : charDigit c ≤ 9 := by
  obtain ⟨h1, h2⟩ := isDigitChar_bounds c h
  unfold charDigit
  omega

theorem digitChar_of_lt10 : ∀ d, d < 10 → Nat.digitChar d = Char.ofNat (48 + d) := by
  decide

theorem digitChar_charDigit (c : Char) (h : isDigitChar c = true) :
    Nat.digitChar (charDigit c) = c := by
  obtain ⟨h1, h2⟩ := isDigitChar_bounds c h
  have hd : charDigit c < 10 := by unfold charDigit; omega
  rw [digitChar_of_lt10 _ hd]
  have he : 48 + charDigit c = c.toNat := by unfold charDigit; omega
  rw [he, Char.ofNat_toNat]

theorem string_mk_append (a b : List Char) :
    String.mk a ++ String.mk b = String.mk (a ++ b) := rfl

end AnalyzeLog

namespace AnalyzeLog

theorem daysInMonth_le31 (y m : Nat) : daysInMonth y m ≤ 31 := by
  unfold daysInMonth
  split_ifs <;> omega

/-- A successful `strptime19` forces the parsed string to be exactly the
canonical zero-padded rendering of the parsed components, and yields the
ranges `datetime` guarantees. -/
theorem strptime19_shape (L : List Char) (dt : Datetime)
    (hp : strptime19 (String.mk L) = some dt) :
    L = [Nat.digitChar (dt.year / 1000), Nat.digitChar (dt.year / 100 % 10),
         Nat.digitChar (dt.year / 10 % 10), Nat.digitChar (dt.year % 10), '-',
         Nat.digitChar (dt.month / 10), Nat.digitChar (dt.month % 10), '-',
         Nat.digitChar (dt.day / 10), Nat.digitChar (dt.day % 10), 'T',
         Nat.digitChar (dt.hour / 10), Nat.digitChar (dt.hour % 10), ':',
         Nat.digitChar (dt.minute / 10), Nat.digitChar (dt.minute % 10), ':',
         Nat.digitChar (dt.second / 10), Nat.digitChar (dt.second % 10)]
      ∧ 1 ≤ dt.year ∧ dt.year ≤ 9999 ∧ dt.month ≤ 12 ∧ dt.day ≤ 31
      ∧ dt.hour ≤ 23 ∧ dt.minute ≤ 59 ∧ dt.second ≤ 59 := by
  rcases L with _ | ⟨y1, L⟩
  · simp [strptime19] at hp
  rcases L with _ | ⟨y2, L⟩
  · simp [strptime19] at hp
  rcases L with _ | ⟨y3, L⟩
  · simp [strptime19] at hp
  rcases L with _ | ⟨y4, L⟩
  · simp [strptime19] at hp
  rcases L with _ | ⟨dsh1, L⟩
  · simp [strptime19] at hp
  rcases L with _ | ⟨m1, L⟩
  · simp [strptime19] at hp
  rcases L with _ | ⟨m2, L⟩
  · simp [strptime19] at hp
  rcases L with _ | ⟨dsh2, L⟩
  · simp [strptime19] at hp
  rcases L with _ | ⟨d1, L⟩
  · simp [strptime19] at hp
  rcases L with _ | ⟨d2, L⟩
  · simp [strptime19] at hp
  rcases L with _ | ⟨tch, L⟩
  · simp [strptime19] at hp
  rcases L with _ | ⟨h1, L⟩
  · simp [strptime19] at hp
  rcases L with _ | ⟨h2, L⟩
  · simp [strptime19] at hp
  rcases L with _ | ⟨col1, L⟩
  · simp [strptime19] at hp
  rcases L with _ | ⟨n1, L⟩
  · simp [strptime19] at hp
  rcases L with _ | ⟨n2, L⟩
  · simp [strptime19] at hp
  rcases L with _ | ⟨col2, L⟩
  · simp [strptime19] at hp
  rcases L with _ | ⟨s1, L⟩
  · simp [strptime19] at hp
  rcases L with _ | ⟨s2, L⟩
  · simp [strptime19] at hp
  rcases L with _ | ⟨ex, L⟩
  case cons => simp [strptime19] at hp
  simp only [strptime19] at hp
  split_ifs at hp with hcond hvalid
  · obtain ⟨hd1, hd2, ht, hc1, hc2, hy1, hy2, hy3, hy4, hm1, hm2, hdd1, hdd2,
      hh1, hh2, hn1, hn2, hs1, hs2⟩ := hcond
    obtain ⟨v1, v2, v3, v4, v5, v6, v7, v8⟩ := hvalid
    obtain rfl := (Option.some.inj hp).symm
    subst hd1; subst hd2; subst ht; subst hc1; subst hc2
    have ha1 := charDigit_le9 _ hy1
    have ha2 := charDigit_le9 _ hy2
    have ha3 := charDigit_le9 _ hy3
    have ha4 := charDigit_le9 _ hy4
    have hb1 := charDigit_le9 _ hm1
    have hb2 := charDigit_le9 _ hm2
    have hcd1 := charDigit_le9 _ hdd1
    have hcd2 := charDigit_le9 _ hdd2
    have he1 := charDigit_le9 _ hh1
    have he2 := charDigit_le9 _ hh2
    have hf1 := charDigit_le9 _ hn1
    have hf2 := charDigit_le9 _ hn2
    have hg1 := charDigit_le9 _ hs1
    have hg2 := charDigit_le9 _ hs2
    have hmax := daysInMonth_le31 (((charDigit y1 * 10 + charDigit y2) * 10
      + charDigit y3) * 10 + charDigit y4) (charDigit m1 * 10 + charDigit m2)
    refine ⟨?_, by simpa using v1, by simp; omega, by simpa using v3,
      by simp; omega, by simpa using v6, by simpa using v7, by simpa using v8⟩
    simp only
    rw [(by omega : (((charDigit y1 * 10 + charDigit y2) * 10 + charDigit y3) * 10
          + charDigit y4) / 1000 = charDigit y1),
      (by omega : (((charDigit y1 * 10 + charDigit y2) * 10 + charDigit y3) * 10
          + charDigit y4) / 100 % 10 = charDigit y2),
      (by omega : (((charDigit y1 * 10 + charDigit y2) * 10 + charDigit y3) * 10
          + charDigit y4) / 10 % 10 = charDigit y3),
      (by omega : (((charDigit y1 * 10 + charDigit y2) * 10 + charDigit y3) * 10
          + charDigit y4) % 10 = charDigit y4),
      (by omega : (charDigit m1 * 10 + charDigit m2) / 10 = charDigit m1),
      (by omega : (charDigit m1 * 10 + charDigit m2) % 10 = charDigit m2),
      (by omega : (charDigit d1 * 10 + charDigit d2) / 10 = charDigit d1),
      (by omega : (charDigit d1 * 10 + charDigit d2) % 10 = charDigit d2),
      (by omega : (charDigit h1 * 10 + charDigit h2) / 10 = charDigit h1),
      (by omega : (charDigit h1 * 10 + charDigit h2) % 10 = charDigit h2),
      (by omega : (charDigit n1 * 10 + charDigit n2) / 10 = charDigit n1),
      (by omega : (charDigit n1 * 10 + charDigit n2) % 10 = charDigit n2),
      (by omega : (charDigit s1 * 10 + charDigit s2) / 10 = charDigit s1),
      (by omega : (charDigit s1 * 10 + charDigit s2) % 10 = charDigit s2),
      digitChar_charDigit _ hy1, digitChar_charDigit _ hy2,
      digitChar_charDigit _ hy3, digitChar_charDigit _ hy4,
      digitChar_charDigit _ hm1, digitChar_charDigit _ hm2,
      digitChar_charDigit _ hdd1, digitChar_charDigit _ hdd2,
      digitChar_charDigit _ hh1, digitChar_charDigit _ hh2,
      digitChar_charDigit _ hn1, digitChar_charDigit _ hn2,
      digitChar_charDigit _ hs1, digitChar_charDigit _ hs2]

end AnalyzeLog

namespace AnalyzeLog

theorem strftime_minute_data (dt : Datetime) (hy1 : 1000 ≤ dt.year)
    (hy2 : dt.year ≤ 9999) (hmo : dt.month ≤ 99) (hd : dt.day ≤ 99)
    (hh : dt.hour ≤ 99) (hmi : dt.minute ≤ 99) :
    strftime_minute dt = String.mk
      [Nat.digitChar (dt.year / 1000), Nat.digitChar (dt.year / 100 % 10),
       Nat.digitChar (dt.year / 10 % 10), Nat.digitChar (dt.year % 10), '-',
       Nat.digitChar (dt.month / 10), Nat.digitChar (dt.month % 10), '-',
       Nat.digitChar (dt.day / 10), Nat.digitChar (dt.day % 10), ' ',
       Nat.digitChar (dt.hour / 10), Nat.digitChar (dt.hour % 10), ':',
       Nat.digitChar (dt.minute / 10), Nat.digitChar (dt.minute % 10)] := by
  unfold strftime_minute
  rw [toString_nat_eq_repr, repr_four_digits _ hy1 (by omega),
    pad2_eq _ (by omega), pad2_eq _ (by omega), pad2_eq _ (by omega),
    pad2_eq _ (by omega)]
  rfl

/-- On every line whose captured timestamp parses (with a four-digit year of
at least 1000, the realistic case), the code's minute bucket is exactly the
spec's truncation: the first 16 characters of the timestamp with the `T`
separator rendered as a space. -/
theorem strftime_eq_spec_truncation (ts : String) (dt : Datetime)
    (hp : strptime19 (pyTake ts 19) = some dt) (hy : 1000 ≤ dt.year) :
    strftime_minute dt = spec_minute_truncation ts := by
  have hshape := strptime19_shape (ts.data.take 19) dt (by simpa [pyTake] using hp)
  obtain ⟨hL, hy1, hy2, hmo2, hd2, hh2, hmi2, hse2⟩ := hshape
  have h16 : ts.data.take 16 = ((ts.data.take 19).take 16) := by
    rw [List.take_take]
    congr 1
  rw [hL] at h16
  unfold spec_minute_truncation
  rw [h16]
  rw [strftime_minute_data dt hy hy2 (by omega) (by omega) (by omega) (by omega)]
  have hswap : ∀ d : Nat, d < 10 →
      ((if Nat.digitChar d = 'T' then ' ' else Nat.digitChar d) : Char)
        = Nat.digitChar d := by decide
  have hdash : ((if ('-' : Char) = 'T' then ' ' else '-') : Char) = '-' := by decide
  have hcolon : ((if (':' : Char) = 'T' then ' ' else ':') : Char) = ':' := by decide
  have hT : ((if ('T' : Char) = 'T' then ' ' else 'T') : Char) = ' ' := by decide
  simp only [List.take_succ_cons, List.take_zero, List.map_cons, List.map_nil]
  rw [hswap _ (by omega), hswap _ (by omega), hswap _ (by omega), hswap _ (by omega),
    hdash, hswap _ (by omega), hswap _ (by omega),
    hswap _ (by omega), hswap _ (by omega),
    hswap _ (by omega), hswap _ (by omega), hcolon,
    hswap _ (by omega), hswap _ (by omega)]
  simp

end AnalyzeLog

namespace AnalyzeLog

/-! ### Helper lemmas: the connections reading loop -/

theorem connections_run_cons (extract : String → Option String)
    (l : String) (rest : List String) (c : List (String × Nat)) :
    connections_run extract (l :: rest) c
      = match extract l with
        | none => connections_run extract rest c
        | some ts =>
            match strptime19 (pyTake ts 19) with
            | none => Except.error ts
            | some dt => connections_run extract rest (updateCount c (strftime_minute dt)) := rfl

theorem connections_run_eq_ok (extract : String → Option String)
    (lines : List String) (c : List (String × Nat))
    (h : ∀ l ∈ lines, connLineOk extract l) :
    connections_run extract lines c
      = .ok (countMatches (bucketOf extract) lines c) := by
  induction lines generalizing c with
  | nil => rfl
  | cons l rest ih =>
      have hl := h l (List.mem_cons_self l rest)
      have hrest : ∀ l' ∈ rest, connLineOk extract l' :=
        fun l' hl' => h l' (List.mem_cons_of_mem l hl')
      rw [connections_run_cons, countMatches_cons]
      unfold connLineOk at hl
      unfold bucketOf
      cases hx : extract l with
      | none =>
          dsimp only
          exact ih c hrest
      | some ts =>
          rw [hx] at hl
          dsimp only at hl ⊢
          cases hpt : strptime19 (pyTake ts 19) with
          | none =>
              rw [hpt] at hl
              simp at hl
          | some dt =>
              simp only [Option.some_bind]
              rw [hpt]
              exact ih _ hrest

theorem connections_run_ok_lines (extract : String → Option String)
    (lines : List String) (c c' : List (String × Nat))
    (h : connections_run extract lines c = .ok c') :
    ∀ l ∈ lines, connLineOk extract l := by
  induction lines generalizing c with
  | nil => intro l hl; cases hl
  | cons l rest ih =>
      rw [connections_run_cons] at h
      intro l' hl'
      rcases List.mem_cons.mp hl' with rfl | hl'
      · unfold connLineOk
        cases hx : extract l' with
        | none => trivial
        | some ts =>
            rw [hx] at h
            dsimp only at h ⊢
            cases hpt : strptime19 (pyTake ts 19) with
            | none =>
                rw [hpt] at h
                dsimp only at h
                cases h
            | some dt => simp [hpt]
      · cases hx : extract l with
        | none =>
            rw [hx] at h
            dsimp only at h
            exact ih c h l' hl'
        | some ts =>
            rw [hx] at h
            dsimp only at h
            cases hpt : strptime19 (pyTake ts 19) with
            | none =>
                rw [hpt] at h
                dsimp only at h
                cases h
            | some dt =>
                rw [hpt] at h
                dsimp only at h
                exact ih _ h l' hl'

/-! ### Helper lemmas: dict-key invariants -/

theorem lookupCount_not_mem {α : Type} [DecidableEq α]
    (c : List (α × Nat)) (k : α) (h : k ∉ c.map Prod.fst) :
    lookupCount c k = 0 := by
  induction c with
  | nil => rfl
  | cons hd tl ih =>
      obtain ⟨k', n⟩ := hd
      simp only [List.map_cons, List.mem_cons] at h
      push_neg at h
      simp only [lookupCount, if_neg h.1]
      exact ih h.2

theorem lookupCount_of_mem {α : Type} [DecidableEq α]
    (c : List (α × Nat)) (k : α) (n : Nat)
    (hnd : (c.map Prod.fst).Nodup) (hm : (k, n) ∈ c) :
    lookupCount c k = n := by
  induction c with
  | nil => cases hm
  | cons hd tl ih =>
      obtain ⟨k', n'⟩ := hd
      simp only [List.map_cons, List.nodup_cons] at hnd
      rcases List.mem_cons.mp hm with heq | hm'
      · injection heq with h1 h2
        subst h1
        subst h2
        simp [lookupCount]
      · have hk : k ≠ k' := by
          rintro rfl
          exact hnd.1 (List.mem_map.mpr ⟨(k, n), hm', rfl⟩)
        simp only [lookupCount, if_neg hk]
        exact ih hnd.2 hm'

theorem mem_counter_iff {α : Type} [DecidableEq α]
    (c : List (α × Nat)) (k : α) (n : Nat)
    (hnd : (c.map Prod.fst).Nodup) (hpos : ∀ p ∈ c, 0 < p.2) :
    (k, n) ∈ c ↔ (lookupCount c k = n ∧ 0 < n) := by
  constructor
  · intro hm
    exact ⟨lookupCount_of_mem c k n hnd hm, hpos _ hm⟩
  · rintro ⟨hl, hn⟩
    by_cases hk : k ∈ c.map Prod.fst
    · obtain ⟨p, hm0, hfst⟩ := List.mem_map.mp hk
      obtain ⟨k0, m⟩ := p
      simp only at hfst
      rw [hfst] at hm0
      have hlm := lookupCount_of_mem c k m hnd hm0
      rw [hlm] at hl
      subst hl
      exact hm0
    · rw [lookupCount_not_mem c k hk] at hl
      omega

theorem keys_nodup_updateCount {α : Type} [DecidableEq α]
    (c : List (α × Nat)) (k : α) (hnd : (c.map Prod.fst).Nodup) :
    ((updateCount c k).map Prod.fst).Nodup := by
  rw [keys_updateCount]
  by_cases hm : k ∈ c.map Prod.fst
  · simpa [hm] using hnd
  · simp only [hm, if_false]
    rw [List.nodup_append]
    exact ⟨hnd, List.nodup_singleton k, by simpa using hm⟩

theorem pos_updateCount {α : Type} [DecidableEq α]
    (c : List (α × Nat)) (k : α) (hpos : ∀ p ∈ c, 0 < p.2) :
    ∀ p ∈ updateCount c k, 0 < p.2 := by
  induction c with
  | nil =>
      intro p hp
      simp only [updateCount, List.mem_singleton] at hp
      subst hp
      omega
  | cons hd tl ih =>
      obtain ⟨k', n⟩ := hd
      intro p hp
      unfold updateCount at hp
      by_cases hk : k = k'
      · rw [if_pos hk] at hp
        rcases List.mem_cons.mp hp with rfl | hp
        · simp
        · exact hpos p (List.mem_cons_of_mem _ hp)
      · rw [if_neg hk] at hp
        rcases List.mem_cons.mp hp with rfl | hp
        · exact hpos _ (List.mem_cons_self _ _)
        · exact ih (fun q hq => hpos q (List.mem_cons_of_mem _ hq)) p hp

theorem keys_nodup_countMatches (f : String → Option String)
    (lines : List String) (c : List (String × Nat))
    (hnd : (c.map Prod.fst).Nodup) :
    ((countMatches f lines c).map Prod.fst).Nodup := by
  induction lines generalizing c with
  | nil => exact hnd
  | cons l rest ih =>
      rw [countMatches_cons]
      cases f l with
      | none => exact ih c hnd
      | some k => exact ih _ (keys_nodup_updateCount c k hnd)

theorem pos_countMatches (f : String → Option String)
    (lines : List String) (c : List (String × Nat))
    (hpos : ∀ p ∈ c, 0 < p.2) :
    ∀ p ∈ countMatches f lines c, 0 < p.2 := by
  induction lines generalizing c with
  | nil => exact hpos
  | cons l rest ih =>
      rw [countMatches_cons]
      cases f l with
      | none => exact ih c hpos
      | some k => exact ih _ (pos_updateCount c k hpos)

theorem keys_countMatches (f : String → Option String)
    (lines : List String) (c : List (String × Nat)) :
    (countMatches f lines c).map Prod.fst
      = (lines.filterMap f).foldl
          (fun acc k => if k ∈ acc then acc else acc ++ [k]) (c.map Prod.fst) := by
  induction lines generalizing c with
  | nil => rfl
  | cons l rest ih =>
      rw [countMatches_cons]
      cases hx : f l with
      | none => simp [List.filterMap_cons, hx, ih]
      | some k =>
          simp only [List.filterMap_cons, hx, List.foldl_cons]
          rw [ih, keys_updateCount]

end AnalyzeLog

namespace AnalyzeLog

theorem string_mk_length (l : List Char) : (String.mk l).length = l.length := rfl

theorem pyLJust_length (s : String) (w : Nat) :
    (pyLJust s w).length = max s.length w := by
  rw [← String.length_data]
  have hd : (pyLJust s w).data = s.data ++ List.replicate (w - s.length) ' ' := by
    unfold pyLJust
    rw [String.data_append]
  rw [hd, List.length_append, List.length_replicate, String.length_data]
  omega

theorem pyRJust_length (s : String) (w : Nat) :
    (pyRJust s w).length = max s.length w := by
  rw [← String.length_data]
  have hd : (pyRJust s w).data = List.replicate (w - s.length) ' ' ++ s.data := by
    unfold pyRJust
    rw [String.data_append]
  rw [hd, List.length_append, List.length_replicate, String.length_data]
  omega

end AnalyzeLog

namespace AnalyzeLog

/-! ### The claims -/

/-- C1: for every aggregate map and every integer minimum, the threshold
filter (`cnt >= min_count` in `analyze_failed_logins`, `len(ips) >= min_ips`
in `identify_bots`) keeps exactly the entries whose metric is at least the
minimum; an entry whose metric equals the minimum is retained, and an entry
whose metric is one below the minimum is dropped. -/
theorem threshold_filter_inclusive (c : List (String × Nat))
    (m : List (String × List String)) (minv : Int) (k : String) (n : Nat)
    (s : List String) :
    ((k, n) ∈ threshold_filter c minv ↔ ((k, n) ∈ c ∧ minv ≤ (n : Int)))
    ∧ ((k, n) ∈ c → (n : Int) = minv → (k, n) ∈ threshold_filter c minv)
    ∧ ((n : Int) = minv - 1 → (k, n) ∉ threshold_filter c minv)
    ∧ ((k, s) ∈ ips_filter m minv ↔ ((k, s) ∈ m ∧ minv ≤ (s.length : Int)))
    ∧ ((k, s) ∈ m → (s.length : Int) = minv → (k, s) ∈ ips_filter m minv)
    ∧ ((s.length : Int) = minv - 1 → (k, s) ∉ ips_filter m minv) := by
  have h1 : ∀ (k' : String) (n' : Nat),
      (k', n') ∈ threshold_filter c minv ↔ ((k', n') ∈ c ∧ minv ≤ (n' : Int)) := by
    intro k' n'
    simp [threshold_filter, List.mem_filter]
  have h2 : ∀ (k' : String) (s' : List String),
      (k', s') ∈ ips_filter m minv ↔ ((k', s') ∈ m ∧ minv ≤ (s'.length : Int)) := by
    intro k' s'
    simp [ips_filter, List.mem_filter]
  refine ⟨h1 k n, ?_, ?_, h2 k s, ?_, ?_⟩
  · intro hm he
    exact (h1 k n).mpr ⟨hm, by omega⟩
  · intro he hmem
    have := ((h1 k n).mp hmem).2
    omega
  · intro hm he
    exact (h2 k s).mpr ⟨hm, by omega⟩
  · intro he hmem
    have := ((h2 k s).mp hmem).2
    omega

theorem threshold_filter_inclusive_witness :
    ((("a" : String), (2 : Nat)) ∈ threshold_filter [("a", 2), ("b", 1)] 2
    ∧ (("b" : String), (1 : Nat)) ∉ threshold_filter [("a", 2), ("b", 1)] 2)
    ∧ ((("f" : String), ["1.1.1.1", "2.2.2.2"])
          ∈ ips_filter [("f", ["1.1.1.1", "2.2.2.2"]), ("g", ["1.1.1.1"])] 2
    ∧ (("g" : String), ["1.1.1.1"])
          ∉ ips_filter [("f", ["1.1.1.1", "2.2.2.2"]), ("g", ["1.1.1.1"])] 2) := by
  refine ⟨⟨?_, ?_⟩, ?_, ?_⟩
  · exact (threshold_filter_inclusive [("a", 2), ("b", 1)] [] 2 "a" 2 []).2.1
      (by decide) (by decide)
  · exact (threshold_filter_inclusive [("a", 2), ("b", 1)] [] 2 "b" 1 []).2.2.1
      (by decide)
  · exact (threshold_filter_inclusive []
      [("f", ["1.1.1.1", "2.2.2.2"]), ("g", ["1.1.1.1"])] 2 "f" 0
      ["1.1.1.1", "2.2.2.2"]).2.2.2.2.1 (by decide) (by decide)
  · exact (threshold_filter_inclusive []
      [("f", ["1.1.1.1", "2.2.2.2"]), ("g", ["1.1.1.1"])] 2 "g" 0
      ["1.1.1.1"]).2.2.2.2.2 (by decide)

/-- C7: the set-based aggregations of `identify_bots` (fingerprint to IP
set) and `analyze_successful_creds` (credential pair to IP set) are
idempotent on duplicates: adding a (primary key, IP) pair that is already
present leaves the aggregate unchanged, so duplicates contribute only once
to the reported cardinality. -/
theorem unique_ip_sets_dedupe (m : List (String × List String))
    (mc : List ((String × String) × List String)) (fp ip : String)
    (cred : String × String) (s sc : List String) :
    (lookupSet m fp = some s → ip ∈ s → addToSet m fp ip = m)
    ∧ (lookupSet mc cred = some sc → ip ∈ sc → addToSet mc cred ip = mc) :=
  ⟨fun hs hip => addToSet_mem_noop m fp ip s hs hip,
   fun hs hip => addToSet_mem_noop mc cred ip sc hs hip⟩

theorem unique_ip_sets_dedupe_witness :
    addToSet [("fp", ["1.1.1.1"])] "fp" "1.1.1.1" = [("fp", ["1.1.1.1"])]
    ∧ addToSet [(("root", "admin"), ["1.1.1.1"])] ("root", "admin") "1.1.1.1"
        = [(("root", "admin"), ["1.1.1.1"])] := by
  refine ⟨?_, ?_⟩
  · exact (unique_ip_sets_dedupe [("fp", ["1.1.1.1"])] [] "fp" "1.1.1.1"
      ("u", "p") ["1.1.1.1"] []).1 (by decide) (by decide)
  · exact (unique_ip_sets_dedupe [] [(("root", "admin"), ["1.1.1.1"])] "fp"
      "1.1.1.1" ("root", "admin") [] ["1.1.1.1"]).2 (by decide) (by decide)

/-- C8: a line that does not match the selected task's pattern yields no
event and raises nothing: every reading loop leaves its aggregate unchanged
on that line and continues with the rest of the file (in the model, the
totality of each loop function is the absence of exceptions; even the
`connections` loop, the only one that can abort, aborts only on *matched*
lines with invalid timestamps). -/
theorem unmatched_lines_skipped (exF exC exT : String → Option String)
    (exS : String → Option (String × String × String))
    (exB : String → Option (String × String)) (l : String) (rest : List String)
    (c : List (String × Nat)) (ms : List ((String × String) × List String))
    (mb : List (String × List String)) :
    (exF l = none → countMatches exF (l :: rest) c = countMatches exF rest c)
    ∧ (exC l = none → connections_run exC (l :: rest) c = connections_run exC rest c)
    ∧ (exT l = none → top_commands_run exT (l :: rest) c = top_commands_run exT rest c)
    ∧ (exS l = none → creds_run exS (l :: rest) ms = creds_run exS rest ms)
    ∧ (exB l = none → bots_run exB (l :: rest) mb = bots_run exB rest mb) := by
  refine ⟨?_, ?_, ?_, ?_, ?_⟩ <;> intro h
  · rw [countMatches_cons, h]
  · rw [connections_run_cons, h]
  · show (match exT l with
          | none => top_commands_run exT rest c
          | some cmd => top_commands_run exT rest (updateCount c (pyStrip cmd)))
        = top_commands_run exT rest c
    rw [h]
  · show (match exS l with
          | none => creds_run exS rest ms
          | some (ip, user, pw) => creds_run exS rest (addToSet ms (user, pw) ip))
        = creds_run exS rest ms
    rw [h]
  · show (match exB l with
          | none => bots_run exB rest mb
          | some (ip, fp) => bots_run exB rest (addToSet mb fp ip))
        = bots_run exB rest mb
    rw [h]

theorem unmatched_lines_skipped_witness :
    countMatches (fun _ => none) ["junk"] [("1.2.3.4", 2)] = [("1.2.3.4", 2)]
    ∧ connections_run (fun _ => none) ["junk"] [] = .ok []
    ∧ top_commands_run (fun _ => none) ["junk"] [] = []
    ∧ creds_run (fun _ => none) ["junk"] [] = []
    ∧ bots_run (fun _ => none) ["junk"] [] = [] := by
  have h := unmatched_lines_skipped (fun _ => none) (fun _ => none)
    (fun _ => none) (fun _ => none) (fun _ => none) "junk" []
    [("1.2.3.4", 2)] [] []
  have h2 := unmatched_lines_skipped (fun _ => none) (fun _ => none)
    (fun _ => none) (fun _ => none) (fun _ => none) "junk" [] [] [] []
  exact ⟨h.1 rfl, h2.2.1 rfl, h2.2.2.1 rfl, h2.2.2.2.1 rfl, h2.2.2.2.2 rfl⟩

end AnalyzeLog

namespace AnalyzeLog

/-- C9: an empty input file — and more generally one with no line matching
the selected task's pattern — produces, for every one of the five tasks,
a report with the header row and the separator rule but zero data rows,
and the run completes normally (in particular the `connections` loop,
the only fallible one, returns `Except.ok`; in Python this is a normal
return and exit status 0). -/
theorem empty_input_reports (exF exC exT : String → Option String)
    (exS : String → Option (String × String × String))
    (exB : String → Option (String × String)) (min_count min_ips : Int)
    (lines : List String)
    (hF : ∀ l ∈ lines, exF l = none) (hC : ∀ l ∈ lines, exC l = none)
    (hT : ∀ l ∈ lines, exT l = none) (hS : ∀ l ∈ lines, exS l = none)
    (hB : ∀ l ∈ lines, exB l = none) :
    analyze_failed_logins exF min_count lines
      = ["Failed login attempts (min " ++ toString min_count ++ ")",
         pyLJust "IP" 2 ++ " " ++ pyRJust "Count" 8, dashes 11]
    ∧ connections exC lines
      = .ok ["Connections per minute",
             pyLJust "Timestamp" 9 ++ " " ++ pyRJust "Count" 8, dashes 18]
    ∧ analyze_successful_creds exS lines
      = ["Successful login credentials",
         pyLJust "Username" 15 ++ " " ++ pyLJust "Password" 15 ++ " "
           ++ pyRJust "IP_Count" 9,
         dashes 41]
    ∧ identify_bots exB min_ips lines
      = ["Fingerprints seen from ≥ " ++ toString min_ips ++ " unique IPs",
         pyLJust "Fingerprint" 47 ++ " " ++ pyRJust "IPs" 6, dashes 53]
    ∧ top_commands exT lines
      = ["Top shell commands", pyLJust "Command" 7 ++ " " ++ pyRJust "Count" 8,
         dashes 16] := by
  refine ⟨?_, ?_, ?_, ?_, ?_⟩
  · unfold analyze_failed_logins
    rw [countMatches_all_none exF lines [] hF]
    rfl
  · unfold connections
    rw [connections_run_all_none exC lines [] hC]
    rfl
  · unfold analyze_successful_creds
    rw [creds_run_all_none exS lines [] hS]
    rfl
  · unfold identify_bots
    rw [bots_run_all_none exB lines [] hB]
    rfl
  · unfold top_commands
    rw [top_commands_run_all_none exT lines [] hT]
    rfl

theorem empty_input_reports_witness :
    analyze_failed_logins (fun _ => none) 1 ["junk line"]
      = ["Failed login attempts (min 1)",
         pyLJust "IP" 2 ++ " " ++ pyRJust "Count" 8, dashes 11]
    ∧ connections (fun _ => none) []
      = .ok ["Connections per minute",
             pyLJust "Timestamp" 9 ++ " " ++ pyRJust "Count" 8, dashes 18]
    ∧ identify_bots (fun _ => none) 3 []
      = ["Fingerprints seen from ≥ 3 unique IPs",
         pyLJust "Fingerprint" 47 ++ " " ++ pyRJust "IPs" 6, dashes 53] := by
  have h1 := empty_input_reports (fun _ => none) (fun _ => none) (fun _ => none)
    (fun _ => none) (fun _ => none) 1 3 ["junk line"]
    (by simp) (by simp) (by simp) (by simp) (by simp)
  have h2 := empty_input_reports (fun _ => none) (fun _ => none) (fun _ => none)
    (fun _ => none) (fun _ => none) 1 3 []
    (by simp) (by simp) (by simp) (by simp) (by simp)
  exact ⟨h1.1, h2.2.1, h2.2.2.2.1⟩

/-- C2: the failed-logins counter is exactly the per-IP number of matching
lines: over any input, the final count for an IP `X` is the number of lines
the failed-login pattern matches with captured IP `X`; one matching line
increments exactly `X`'s counter by 1 and leaves every other counter
unchanged, and a non-matching line leaves the whole counter unchanged. -/
theorem failed_logins_counts (extract : String → Option String)
    (lines : List String) (X Y l : String) (c : List (String × Nat)) :
    lookupCount (countMatches extract lines []) X
      = lines.countP (fun l' => decide (extract l' = some X))
    ∧ (extract l = some X →
        lookupCount (countMatches extract [l] c) X = lookupCount c X + 1)
    ∧ (extract l = some X → Y ≠ X →
        lookupCount (countMatches extract [l] c) Y = lookupCount c Y)
    ∧ (extract l = none →
        countMatches extract (l :: lines) c = countMatches extract lines c) := by
  refine ⟨?_, ?_, ?_, ?_⟩
  · simpa [lookupCount] using lookupCount_countMatches extract lines [] X
  · intro h
    rw [countMatches_cons, h]
    show lookupCount (updateCount c X) X = lookupCount c X + 1
    rw [lookupCount_updateCount]
    simp
  · intro h hY
    rw [countMatches_cons, h]
    show lookupCount (updateCount c X) Y = lookupCount c Y
    rw [lookupCount_updateCount, if_neg hY]
  · intro h
    rw [countMatches_cons, h]

/-- A concrete stand-in for the `FAILED_LOGIN_PATTERN` search used by the
C2 witness: three lines carry failed logins from `1.2.3.4`, one from
`5.6.7.8`, anything else does not match. -/
def exFailedC2 : String → Option String := fun l =>
  if l = "A" then some "1.2.3.4"
  else if l = "B" then some "1.2.3.4"
  else if l = "C" then some "1.2.3.4"
  else if l = "D" then some "5.6.7.8"
  else none

theorem failed_logins_counts_witness :
    lookupCount (countMatches exFailedC2 ["A", "B", "C", "D", "junk"] []) "1.2.3.4" = 3
    ∧ lookupCount (countMatches exFailedC2 ["A", "B", "C", "D", "junk"] []) "5.6.7.8" = 1
    ∧ lookupCount (countMatches exFailedC2 ["A"] [("1.2.3.4", 2)]) "1.2.3.4" = 3
    ∧ lookupCount (countMatches exFailedC2 ["A"] [("5.6.7.8", 1)]) "5.6.7.8" = 1
    ∧ countMatches exFailedC2 ["junk"] [("1.2.3.4", 2)] = [("1.2.3.4", 2)] := by
  refine ⟨?_, ?_, ?_, ?_, ?_⟩
  · exact (failed_logins_counts exFailedC2 ["A", "B", "C", "D", "junk"]
      "1.2.3.4" "x" "x" []).1.trans (by decide)
  · exact (failed_logins_counts exFailedC2 ["A", "B", "C", "D", "junk"]
      "5.6.7.8" "x" "x" []).1.trans (by decide)
  · exact ((failed_logins_counts exFailedC2 [] "1.2.3.4" "x" "A"
      [("1.2.3.4", 2)]).2.1 (by decide)).trans (by decide)
  · exact ((failed_logins_counts exFailedC2 [] "1.2.3.4" "5.6.7.8" "A"
      [("5.6.7.8", 1)]).2.2.1 (by decide) (by decide)).trans (by decide)
  · exact (failed_logins_counts exFailedC2 [] "x" "x" "junk"
      [("1.2.3.4", 2)]).2.2.2 (by decide)

end AnalyzeLog

namespace AnalyzeLog

/-- A concrete stand-in for the `SUCCESS_LOGIN_PATTERN` search used by the
C4 example: `(root, admin)` succeeds from three distinct IPs, `(root, 1234)`
from one. -/
def exCredsC4 : String → Option (String × String × String) := fun l =>
  if l = "a" then some ("1.1.1.1", "root", "admin")
  else if l = "b" then some ("2.2.2.2", "root", "admin")
  else if l = "c" then some ("3.3.3.3", "root", "admin")
  else if l = "d" then some ("4.4.4.4", "root", "1234")
  else none

/-- C4: the rows of the failed-logins and top-commands reports
(`most_common`) and of the identify-bots and successful-creds reports
(`sorted(..., key=len, reverse=True)`) are in descending order of their
metric; in particular, in the successful-creds report a credential pair
seen from 3 distinct IPs is listed before one seen from 1 IP. -/
theorem reports_descending_by_metric (c : List (String × Nat))
    (mb : List (String × List String))
    (mc : List ((String × String) × List String)) :
    (most_common c).Pairwise (fun a b => b.2 ≤ a.2)
    ∧ (sortBySetSizeDesc mb).Pairwise (fun a b => b.2.length ≤ a.2.length)
    ∧ (sortBySetSizeDesc mc).Pairwise (fun a b => b.2.length ≤ a.2.length)
    ∧ analyze_successful_creds exCredsC4 ["a", "b", "c", "d"]
      = ["Successful login credentials",
         pyLJust "Username" 15 ++ " " ++ pyLJust "Password" 15 ++ " "
           ++ pyRJust "IP_Count" 9,
         dashes 41,
         pyLJust "root" 15 ++ " " ++ pyLJust "admin" 15 ++ " " ++ pyRJust "3" 9,
         pyLJust "root" 15 ++ " " ++ pyLJust "1234" 15 ++ " " ++ pyRJust "1" 9] := by
  refine ⟨?_, ?_, ?_, by decide⟩
  · refine (pairwise_stableSort gtCount gtCount_asymm gtCount_transNeg c).imp ?_
    intro a b h
    simpa [gtCount] using h
  · refine (pairwise_stableSort gtSetLen gtSetLen_asymm gtSetLen_transNeg mb).imp ?_
    intro a b h
    simpa [gtSetLen] using h
  · refine (pairwise_stableSort gtSetLen gtSetLen_asymm gtSetLen_transNeg mc).imp ?_
    intro a b h
    simpa [gtSetLen] using h

/-- C10: every task's output is a function of the line sequence alone (two
runs over equal line sequences print identical output), the counter's key
order is the first-occurrence order of the captured keys, and the
descending sorts are stable, so entries with equal metrics appear in
first-occurrence (insertion) order. -/
theorem deterministic_and_insertion_order_ties
    (exF exC exT : String → Option String)
    (exS : String → Option (String × String × String))
    (exB : String → Option (String × String))
    (min_count min_ips : Int) (lines lines' : List String)
    (c : List (String × Nat)) (k1 k2 : String) (n : Nat)
    (mb : List (String × List String)) (x1 x2 : String) (s1 s2 : List String)
    (mc : List ((String × String) × List String)) (y1 y2 : String × String)
    (t1 t2 : List String) :
    (lines = lines' →
      analyze_failed_logins exF min_count lines
          = analyze_failed_logins exF min_count lines'
      ∧ connections exC lines = connections exC lines'
      ∧ analyze_successful_creds exS lines = analyze_successful_creds exS lines'
      ∧ identify_bots exB min_ips lines = identify_bots exB min_ips lines'
      ∧ top_commands exT lines = top_commands exT lines')
    ∧ (countMatches exF lines []).map Prod.fst = dedupFirst (lines.filterMap exF)
    ∧ ([(k1, n), (k2, n)] <+ c → [(k1, n), (k2, n)] <+ most_common c)
    ∧ (s1.length = s2.length → [(x1, s1), (x2, s2)] <+ mb →
        [(x1, s1), (x2, s2)] <+ sortBySetSizeDesc mb)
    ∧ (t1.length = t2.length → [(y1, t1), (y2, t2)] <+ mc →
        [(y1, t1), (y2, t2)] <+ sortBySetSizeDesc mc) := by
  refine ⟨?_, ?_, ?_, ?_, ?_⟩
  · rintro rfl
    exact ⟨rfl, rfl, rfl, rfl, rfl⟩
  · simpa [dedupFirst] using keys_countMatches exF lines []
  · intro hsub
    exact stableSort_stable gtCount gtCount_asymm gtCount_transNeg _ _ c hsub
      (by simp [gtCount])
  · intro hlen hsub
    exact stableSort_stable gtSetLen gtSetLen_asymm gtSetLen_transNeg _ _ mb hsub
      (by simp [gtSetLen, hlen])
  · intro hlen hsub
    exact stableSort_stable gtSetLen gtSetLen_asymm gtSetLen_transNeg _ _ mc hsub
      (by simp [gtSetLen, hlen])

theorem deterministic_and_insertion_order_ties_witness :
    (countMatches exFailedC2 ["A", "D", "junk"] []).map Prod.fst
        = dedupFirst (["A", "D", "junk"].filterMap exFailedC2)
    ∧ [("1.2.3.4", 1), ("5.6.7.8", 1)] <+ most_common [("1.2.3.4", 1), ("5.6.7.8", 1)]
    ∧ [("f", ["1.1.1.1"]), ("g", ["2.2.2.2"])]
        <+ sortBySetSizeDesc [("f", ["1.1.1.1"]), ("g", ["2.2.2.2"])] := by
  have h := deterministic_and_insertion_order_ties exFailedC2 exFailedC2
    exFailedC2 (fun _ => none) (fun _ => none) 1 3 ["A", "D", "junk"]
    ["A", "D", "junk"] [("1.2.3.4", 1), ("5.6.7.8", 1)] "1.2.3.4" "5.6.7.8" 1
    [("f", ["1.1.1.1"]), ("g", ["2.2.2.2"])] "f" "g" ["1.1.1.1"] ["2.2.2.2"]
    [] ("u", "p") ("u", "q") [] []
  exact ⟨h.2.1, h.2.2.1 (by decide), h.2.2.2.1 (by decide) (by decide)⟩

end AnalyzeLog

namespace AnalyzeLog

/-- A concrete stand-in for the `FINGERPRINT_PATTERN` search used by the C3
counterexample: one 32-character fingerprint seen from three distinct IPs
(a real matching log line would be, e.g.,
`[HoneyPotSSHTransport,1,1.1.1.1] SSH client hassh fingerprint:`
followed by the 32-character colon-hex string). -/
def exBotsC3 : String → Option (String × String) := fun l =>
  if l = "a" then some ("1.1.1.1", "00:11:22:33:44:55:66:77:88:99:aa")
  else if l = "b" then some ("2.2.2.2", "00:11:22:33:44:55:66:77:88:99:aa")
  else if l = "c" then some ("3.3.3.3", "00:11:22:33:44:55:66:77:88:99:aa")
  else none

/-- C3 is false on the code: in the identify-bots report the key column is a
fixed 47 characters — not the length of the longest key (32) nor the header
text (11) — and the metric column is a fixed 6 characters, outside the
claimed 8-10 range. -/
theorem report_columns_counterexample :
    identify_bots exBotsC3 3 ["a", "b", "c"]
      = ["Fingerprints seen from ≥ 3 unique IPs",
         pyLJust "Fingerprint" 47 ++ " " ++ pyRJust "IPs" 6,
         dashes 53,
         pyLJust "00:11:22:33:44:55:66:77:88:99:aa" 47 ++ " " ++ pyRJust "3" 6]
    ∧ (pyLJust "Fingerprint" 47).length = 47
    ∧ ("00:11:22:33:44:55:66:77:88:99:aa" : String).length = 32
    ∧ ("Fingerprint" : String).length = 11
    ∧ ¬ (pyLJust "Fingerprint" 47).length
        = max ("00:11:22:33:44:55:66:77:88:99:aa" : String).length
            ("Fingerprint" : String).length
    ∧ (pyRJust "IPs" 6).length = 6
    ∧ (pyRJust "3" 6).length = 6
    ∧ ¬ (8 ≤ (pyRJust "3" 6).length ∧ (pyRJust "3" 6).length ≤ 10) := by
  decide

/-- C3 (amended): only the `_print_counter` reports (failed-logins,
connections, top-commands) size the key column to the longest key string —
the header length is used only when the map is empty, and the header cell
itself occupies the maximum of that width and the header text length; their
metric column is fixed at 8 characters.  `successful-creds` uses fixed
15/15-character key columns with a 9-character metric column, and
`identify-bots` a fixed 47-character key column with a 6-character metric
column — so the per-report metric width lies between 6 and 9, not 8 and 10. -/
theorem report_columns_amended (counter : List (String × Nat))
    (h1 h2 : String) (sk : Bool) (n : Nat) (fp u cnt : String) :
    ((_print_counter counter h1 h2 sk).head?
        = some (pyLJust h1 (pcWidth counter h1) ++ " " ++ pyRJust h2 8))
    ∧ (pyLJust h1 (pcWidth counter h1)).length = max (pcWidth counter h1) h1.length
    ∧ (counter = [] → pcWidth counter h1 = h1.length)
    ∧ (counter ≠ [] → pcWidth counter h1
        = counter.foldl (fun acc kv => max acc kv.1.length) 0)
    ∧ ((toString n).length ≤ 8 → (pyRJust (toString n) 8).length = 8)
    ∧ (pyRJust h2 8).length = max 8 h2.length
    ∧ (fp.length ≤ 47 → (pyLJust fp 47).length = 47)
    ∧ (cnt.length ≤ 6 → (pyRJust cnt 6).length = 6)
    ∧ (u.length ≤ 15 → (pyLJust u 15).length = 15)
    ∧ (cnt.length ≤ 9 → (pyRJust cnt 9).length = 9) := by
  refine ⟨rfl, ?_, ?_, ?_, ?_, ?_, ?_, ?_, ?_, ?_⟩
  · rw [pyLJust_length]
    omega
  · intro h
    subst h
    rfl
  · intro h
    unfold pcWidth
    rw [if_neg (by simpa [List.isEmpty_iff] using h)]
  · intro h
    rw [pyRJust_length]
    omega
  · rw [pyRJust_length]
    omega
  · intro h
    rw [pyLJust_length]
    omega
  · intro h
    rw [pyRJust_length]
    omega
  · intro h
    rw [pyLJust_length]
    omega
  · intro h
    rw [pyRJust_length]
    omega

theorem report_columns_amended_witness :
    (_print_counter [("1.2.3.4", 3)] "IP" "Count" false).head?
        = some (pyLJust "IP" (pcWidth [("1.2.3.4", 3)] "IP") ++ " " ++ pyRJust "Count" 8)
    ∧ (pyLJust "IP" (pcWidth [("1.2.3.4", 3)] "IP")).length
        = max (pcWidth [("1.2.3.4", 3)] "IP") ("IP" : String).length
    ∧ pcWidth [("1.2.3.4", 3)] "IP"
        = [("1.2.3.4", 3)].foldl (fun acc kv => max acc kv.1.length) 0
    ∧ (pyRJust (toString (3 : Nat)) 8).length = 8
    ∧ (pyLJust "00:11:22:33:44:55:66:77:88:99:aa" 47).length = 47
    ∧ (pyRJust "3" 6).length = 6
    ∧ (pyLJust "root" 15).length = 15
    ∧ (pyRJust "3" 9).length = 9 := by
  have h := report_columns_amended [("1.2.3.4", 3)] "IP" "Count" false 3
    "00:11:22:33:44:55:66:77:88:99:aa" "root" "3"
  exact ⟨h.1, h.2.1, h.2.2.2.1 (by decide), h.2.2.2.2.1 (by decide),
    h.2.2.2.2.2.2.1 (by decide), h.2.2.2.2.2.2.2.1 (by decide),
    h.2.2.2.2.2.2.2.2.1 (by decide), h.2.2.2.2.2.2.2.2.2 (by decide)⟩

end AnalyzeLog

namespace AnalyzeLog

/-- A concrete stand-in for the `NEW_CONN_PATTERN` search used by the C6
counterexample.  The real input line
`2023-13-01T10:15:02.5Z [cowrie.ssh.factory.CowrieSSHFactory] New connection: 1.2.3.4:56`
matches the pattern — `\d2` accepts month 13 — with timestamp group
`2023-13-01T10:15:02.5`. -/
def exConnBad : String → Option String := fun l =>
  if l = "L" then some "2023-13-01T10:15:02.5" else none

/-- C6 is false on the code as stated: a line matching the new-connection
grammar whose captured timestamp is not a valid calendar date-time (here
month 13) does not contribute to any minute bucket — `strptime` raises
`ValueError` and the run aborts instead. -/
theorem connections_invalid_timestamp_counterexample :
    strptime19 (pyTake "2023-13-01T10:15:02.5" 19) = none
    ∧ connections_run exConnBad ["L"] [] = .error "2023-13-01T10:15:02.5"
    ∧ connections exConnBad ["L"] = .error "2023-13-01T10:15:02.5" := by
  decide

/-- C6 (amended): for every run that completes, each bucket's count is the
number of lines whose captured timestamp (truncated to its first 19
characters, discarding the fractional part; the zone marker is outside the
capture) parses and re-renders to that minute bucket; the bucket depends
only on year, month, day, hour and minute — so all matching lines in the
same minute land in a single bucket whose count is their total number — and
for valid timestamps with a year of at least 1000 the bucket string is
exactly the spec's truncation, the first 16 characters with `T` replaced by
a space.  A matching line with an invalid date-time instead aborts the run. -/
theorem connections_minute_bucketing (extract : String → Option String)
    (lines : List String) (c : List (String × Nat)) (b ts ts' : String)
    (dt dt' : Datetime)
    (h : connections_run extract lines [] = .ok c)
    (hp : strptime19 (pyTake ts 19) = some dt)
    (hp' : strptime19 (pyTake ts' 19) = some dt') :
    lookupCount c b
      = lines.countP (fun l => decide (bucketOf extract l = some b))
    ∧ (dt.year = dt'.year → dt.month = dt'.month → dt.day = dt'.day →
        dt.hour = dt'.hour → dt.minute = dt'.minute →
        strftime_minute dt = strftime_minute dt')
    ∧ (1000 ≤ dt.year → strftime_minute dt = spec_minute_truncation ts) := by
  refine ⟨?_, ?_, fun hy => strftime_eq_spec_truncation ts dt hp hy⟩
  · have hok := connections_run_ok_lines extract lines [] c h
    rw [connections_run_eq_ok extract lines [] hok] at h
    obtain rfl := (Except.ok.inj h).symm
    simpa [lookupCount] using lookupCount_countMatches (bucketOf extract) lines [] b
  · intro h1 h2 h3 h4 h5
    unfold strftime_minute
    rw [h1, h2, h3, h4, h5]

/-- A concrete stand-in for the `NEW_CONN_PATTERN` search used by the C6
witness: the spec's example, two connections at `2023-01-01T10:15:02Z` and
`2023-01-01T10:15:47Z` (the second with a fractional part). -/
def exConnC6 : String → Option String := fun l =>
  if l = "A" then some "2023-01-01T10:15:02"
  else if l = "B" then some "2023-01-01T10:15:47.123"
  else none

theorem connections_minute_bucketing_witness :
    lookupCount [("2023-01-01 10:15", 2)] "2023-01-01 10:15" = 2
    ∧ strftime_minute ⟨2023, 1, 1, 10, 15, 2⟩ = strftime_minute ⟨2023, 1, 1, 10, 15, 47⟩
    ∧ strftime_minute ⟨2023, 1, 1, 10, 15, 2⟩
        = spec_minute_truncation "2023-01-01T10:15:02" := by
  have h := connections_minute_bucketing exConnC6 ["A", "B"]
    [("2023-01-01 10:15", 2)] "2023-01-01 10:15" "2023-01-01T10:15:02"
    "2023-01-01T10:15:47.123" ⟨2023, 1, 1, 10, 15, 2⟩ ⟨2023, 1, 1, 10, 15, 47⟩
    (by decide) (by decide) (by decide)
  exact ⟨h.1.trans (by decide), h.2.1 rfl rfl rfl rfl rfl, h.2.2 (by decide)⟩

end AnalyzeLog

namespace AnalyzeLog

theorem isEmpty_eq_of_length_eq {γ : Type} (l1 l2 : List γ)
    (h : l1.length = l2.length) : l1.isEmpty = l2.isEmpty := by
  cases l1 <;> cases l2 <;> simp_all

/-- C5: on any run of `connections` that completes, the report's bucket rows
are rendered from `sorted(counter.items())`, which is strictly ascending in
the bucket key (Python's code-point string order), and the whole report is
unchanged under any permutation of the input lines. -/
theorem connections_sorted_ascending_and_perm_invariant
    (extract : String → Option String) (lines lines' : List String)
    (out : List String) (c : List (String × Nat))
    (hperm : lines ~ lines')
    (hout : connections extract lines = .ok out)
    (hrun : connections_run extract lines [] = .ok c) :
    connections extract lines' = .ok out
    ∧ (sortedItems c).Pairwise (fun a b => pyStrLt a.1 b.1 = true) := by
  have hok : ∀ l ∈ lines, connLineOk extract l :=
    connections_run_ok_lines extract lines [] c hrun
  have hok' : ∀ l ∈ lines', connLineOk extract l :=
    fun l hl => hok l (hperm.symm.subset hl)
  have hrun_eq := connections_run_eq_ok extract lines [] hok
  have hc : c = countMatches (bucketOf extract) lines [] := by
    rw [hrun_eq] at hrun
    exact (Except.ok.inj hrun).symm
  have hrun' := connections_run_eq_ok extract lines' [] hok'
  set c' := countMatches (bucketOf extract) lines' [] with hc'
  have hnd : (c.map Prod.fst).Nodup := by
    rw [hc]
    exact keys_nodup_countMatches _ lines [] (by simp)
  have hnd' : (c'.map Prod.fst).Nodup :=
    keys_nodup_countMatches _ lines' [] (by simp)
  have hpos : ∀ p ∈ c, 0 < p.2 := by
    rw [hc]
    exact pos_countMatches _ lines [] (by intro p hp; cases hp)
  have hpos' : ∀ p ∈ c', 0 < p.2 :=
    pos_countMatches _ lines' [] (by intro p hp; cases hp)
  have hlook : ∀ k, lookupCount c k = lookupCount c' k := by
    intro k
    rw [hc]
    have h1 := lookupCount_countMatches (bucketOf extract) lines [] k
    have h2 := lookupCount_countMatches (bucketOf extract) lines' [] k
    simp only [lookupCount] at h1 h2
    rw [h1, h2, hperm.countP_eq]
  have hcperm : c ~ c' := by
    rw [List.perm_ext_iff_of_nodup (hnd.of_map _) (hnd'.of_map _)]
    intro p
    obtain ⟨k, n⟩ := p
    rw [mem_counter_iff c k n hnd hpos, mem_counter_iff c' k n hnd' hpos', hlook]
  haveI : IsAntisymm (String × Nat) (fun a b => ltPair b a = false) :=
    ⟨fun a b h1 h2 => ltPair_antisymm a b h2 h1⟩
  have hsorted : List.Sorted (fun a b => ltPair b a = false) (sortedItems c) :=
    pairwise_stableSort ltPair ltPair_asymm ltPair_transNeg c
  have hsorted' : List.Sorted (fun a b => ltPair b a = false) (sortedItems c') :=
    pairwise_stableSort ltPair ltPair_asymm ltPair_transNeg c'
  have hsperm : sortedItems c ~ sortedItems c' :=
    (stableSort_perm ltPair c).trans (hcperm.trans (stableSort_perm ltPair c').symm)
  have heq : sortedItems c = sortedItems c' :=
    List.eq_of_perm_of_sorted hsperm hsorted hsorted'
  have hemp : c.isEmpty = c'.isEmpty :=
    isEmpty_eq_of_length_eq c c' hcperm.length_eq
  haveI : RightCommutative (fun (acc : Nat) (kv : String × Nat) => max acc kv.1.length) :=
    ⟨fun b a1 a2 => by omega⟩
  have hfold : c.foldl (fun acc kv => max acc kv.1.length) 0
      = c'.foldl (fun acc kv => max acc kv.1.length) 0 :=
    hcperm.foldl_eq 0
  have hwidth : pcWidth c "Timestamp" = pcWidth c' "Timestamp" := by
    unfold pcWidth
    rw [hemp, hfold]
  have hpc : _print_counter c' "Timestamp" "Count" true
      = _print_counter c "Timestamp" "Count" true := by
    unfold _print_counter
    rw [← heq, ← hwidth]
    rfl
  constructor
  · unfold connections at hout ⊢
    rw [hrun] at hout
    rw [hrun']
    show Except.ok ("Connections per minute"
        :: _print_counter c' "Timestamp" "Count" true) = Except.ok out
    rw [hpc]
    exact hout
  · have hndk : ((sortedItems c).map Prod.fst).Nodup :=
      (((stableSort_perm ltPair c).map Prod.fst).nodup_iff).mpr hnd
    have hne : (sortedItems c).Pairwise (fun a b => a.1 ≠ b.1) :=
      List.pairwise_map.mp hndk
    refine List.Pairwise.imp₂ ?_ hsorted hne
    intro a b h1 h2
    cases hcb : chLt a.1.data b.1.data with
    | true => exact hcb
    | false =>
        exfalso
        have hba : chLt b.1.data a.1.data = false := ((ltPair_false_iff b a).mp h1).1
        exact h2 (string_data_inj (chLt_antisymm _ _ hcb hba))

/-- A concrete stand-in for the `NEW_CONN_PATTERN` search used by the C5
witness: two connections in different minutes, first seen out of
chronological order. -/
def exConnC5 : String → Option String := fun l =>
  if l = "A" then some "2023-01-01T10:16:00"
  else if l = "B" then some "2023-01-01T10:15:59.9"
  else none

theorem connections_sorted_ascending_and_perm_invariant_witness :
    connections exConnC5 ["B", "A"]
      = .ok ["Connections per minute",
             pyLJust "Timestamp" 16 ++ " " ++ pyRJust "Count" 8, dashes 25,
             pyLJust "2023-01-01 10:15" 16 ++ " " ++ pyRJust "1" 8,
             pyLJust "2023-01-01 10:16" 16 ++ " " ++ pyRJust "1" 8]
    ∧ (sortedItems [("2023-01-01 10:16", 1), ("2023-01-01 10:15", 1)]).Pairwise
        (fun a b => pyStrLt a.1 b.1 = true) := by
  have h := connections_sorted_ascending_and_perm_invariant exConnC5
    ["A", "B"] ["B", "A"]
    ["Connections per minute",
     pyLJust "Timestamp" 16 ++ " " ++ pyRJust "Count" 8, dashes 25,
     pyLJust "2023-01-01 10:15" 16 ++ " " ++ pyRJust "1" 8,
     pyLJust "2023-01-01 10:16" 16 ++ " " ++ pyRJust "1" 8]
    [("2023-01-01 10:16", 1), ("2023-01-01 10:15", 1)]
    (by decide) (by decide) (by decide)
  exact ⟨h.1, h.2⟩

end AnalyzeLog
